import Mathlib

/-!
Verification of the two algorithmic subsystems of the uexcorp-openapi
generator (`src/generator.py`): the parameter-combination / URL-variant
generator (`UEXEndpointDocsParser`) and the schema consolidation engine
(`OpenAPIManager`).

The Python code is shallowly embedded as executable Lean definitions.
Python `dict`s are modelled as insertion-ordered association lists
(`List (String × _)`); Python hash `set`s have no specified iteration
order, so every place the source iterates a set, the embedding takes the
iteration order as an explicit input list of distinct elements.
-/

namespace UexCorp

/-! ### Association-list primitives mirroring Python `dict` operations -/

/-- `d[k]` lookup: first (and in a real `dict`, only) binding wins. -/
def assocLookup {α : Type} (k : String) : List (String × α) → Option α
  | [] => none
  | kv :: rest => if kv.1 == k then some kv.2 else assocLookup k rest

/-- `k in d` membership test. -/
def assocContains {α : Type} (k : String) (l : List (String × α)) : Bool :=
  (l.map Prod.fst).contains k

/-- `d[k] = v` assignment: replaces the value of an existing binding in
place (Python keeps the key's insertion position), otherwise appends. -/
def assocSet {α : Type} : List (String × α) → String → α → List (String × α)
  | [], k, v => [(k, v)]
  | kv :: rest, k, v => if kv.1 == k then (k, v) :: rest else kv :: assocSet rest k v

/-! ### Parameter model (`UEXEndpointParameter`, `UEXEndpointLink`) -/

structure UEXEndpointParameter where
  name : String
  type : String
  length : Nat
  is_required : Bool
deriving DecidableEq, Repr

structure UEXEndpointLink where
  link : String
  required_params : List UEXEndpointParameter
deriving DecidableEq, Repr

/-- Default sample values (`UEXEndpointDocsParser.defaults`).  Values keep
their Python types: `int`, `str` or `bool`. -/
inductive PyVal where
  | int : Int → PyVal
  | str : String → PyVal
  | bool : Bool → PyVal
deriving DecidableEq, Repr

/-- Python `f"...{v}..."` string conversion of a default value. -/
def PyVal.toStr : PyVal → String
  | .int n => toString n
  | .str s => s
  | .bool b => if b then "True" else "False"

def defaults : List (String × PyVal) := [
  ("id_commodity", .int 33),
  ("id_star_system", .int 68),
  ("id_planet", .int 116),
  ("id_orbit", .int 116),
  ("id_moon", .int 18),
  ("id_city", .int 5),
  ("id_jurisdiction", .int 1),
  ("id_outpost", .int 44),
  ("id_terminal", .int 74),
  ("id_faction", .int 23),
  ("id_space_station", .int 11),
  ("id_category", .int 1),
  ("id_organization", .int 1),
  ("id_company", .int 1),
  ("id_vehicle", .int 19),
  ("id_parent", .int 169),
  ("id_item", .int 1),
  ("id_poi", .int 0),
  ("commodity_name", .str "GOLD"),
  ("commodity_code", .str "GOLD"),
  ("commodity_slug", .str "gold"),
  ("terminal_name", .str "TDD"),
  ("terminal_code", .str "TDORI"),
  ("terminal_slug", .str "tdori"),
  ("uuid", .str "a6ec85a5-feba-4239-88e4-02e1a6e521e1"),
  ("code", .str "TDORI"),
  ("name", .str "ARC"),
  ("is_lagrange", .int 1),
  ("is_item_manufacturer", .bool true),
  ("is_vehicle_manufacturer", .bool true),
  ("id_terminal_origin", .int 89),
  ("id_planet_origin", .int 59),
  ("id_orbit_origin", .int 59),
  ("id_faction_origin", .int 23),
  ("id_star_system_origin", .int 19),
  ("id_terminal_destination", .int 12),
  ("id_faction_destination", .int 23),
  ("id_planet_destination", .int 4),
  ("id_orbit_destination", .int 4),
  ("id_star_system_destination", .int 26),
  ("investment", .int 1000000),
  ("specialization", .str "trading"),
  ("slug", .str "slug"),
  ("languages", .str "en"),
  ("day_availability", .str "weekends"),
  ("time_availability", .str "morning"),
  ("username", .str "kronny"),
  ("timezone", .str "Europe/Prague"),
  ("archetypes", .str "strategist")]

def required_args_all : List String := ["commodities_prices_history"]

/-- Kernel-computable counterpart of `str.startswith` (`re.match("^items", ...)`
in the source): character-list prefix test. -/
def strStartsWith (s pre : String) : Bool := pre.data.isPrefixOf s.data

/-- Per-endpoint override table built by the `match self.get_id()` block in
`get_defaults`; the final wildcard case matches ids starting with `items`. -/
def default_overrides (endpointId : String) : List (String × PyVal) :=
  if endpointId == "categories" then
    [("type", .str "item"), ("section", .str "other")]
  else if endpointId == "marketplace_listings" then
    [("id", .str "9Nor6zAazH"), ("slug", .str "training-mining-and-refining-9Nor6zAazH")]
  else if endpointId == "organizations" then
    [("slug", .str "uexcorp")]
  else if endpointId == "terminals" then
    [("type", .str "commodity")]
  else if endpointId == "commodities_raw_prices" then
    [("id_terminal", .str "237,241"), ("id_commodity", .int 45)]
  else if endpointId == "commodities_prices_history" then
    [("id_terminal", .int 74), ("id_commodity", .int 68)]
  else if endpointId == "vehicles_loaners" then
    [("id_vehicle", .int 19)]
  else if endpointId == "vehicles_purchases_prices" then
    [("id_vehicle", .int 19), ("id_terminal", .int 148)]
  else if endpointId == "vehicles_rentals_prices" then
    [("id_vehicle", .int 148), ("id_terminal", .int 150)]
  else if strStartsWith endpointId "items" then
    [("id_item", .int 1743), ("id_terminal", .int 268)]
  else []

/-- `UEXEndpointDocsParser.get_defaults(parameter_name, default)`.  In
template mode it returns the placeholder string `{parameter_name}`
regardless of any default. -/
def get_defaults (endpointId : String) (templated : Bool)
    (parameter_name : String) (default : Option PyVal) : Option PyVal :=
  if templated then some (.str ("\x7b" ++ parameter_name ++ "\x7d"))
  else
    match assocLookup parameter_name (default_overrides endpointId) with
    | some v => some v
    | none =>
      match assocLookup parameter_name defaults with
      | some v => some v
      | none => default

/-- `UEXEndpointDocsParser.create_endpoint_url`.  Required parameters are
rendered into the path as `/name/value/` in order; optional parameters go
into a `dict` and then into the query string `name=value&...`.  A missing
default renders as Python's `None` in the path and as `""` in the query
(the call sites pass `default=None` resp. `default=""`). -/
def create_endpoint_url (endpointId base_endpoint_path : String) (templated : Bool)
    (optional_params required_params : List UEXEndpointParameter) : UEXEndpointLink :=
  let parameters_path :=
    required_params.foldl
      (fun acc p =>
        acc ++ p.name ++ "/" ++
          (match get_defaults endpointId templated p.name none with
           | some v => v.toStr
           | none => "None") ++ "/")
      "/"
  let parameters_query : List (String × String) :=
    optional_params.foldl
      (fun q p =>
        assocSet q p.name
          (((get_defaults endpointId templated p.name (some (.str ""))).getD (.str "")).toStr))
      []
  let parameters_query_str :=
    String.intercalate "&" (parameters_query.map fun kv => kv.1 ++ "=" ++ kv.2)
  let parameters_query_str' :=
    if parameters_query_str ≠ "" then "?" ++ parameters_query_str else ""
  let url :=
    if templated then base_endpoint_path ++ parameters_path
    else base_endpoint_path ++ parameters_path ++ parameters_query_str'
  { link := url, required_params := required_params }

/-- One element of the heterogeneous `optional_params_x` list: the seeded
empty list `[]`, or a bare parameter appended later (the source wraps the
latter in a singleton list via the `isinstance` check). -/
inductive OptEntry where
  | params : List UEXEndpointParameter → OptEntry
  | single : UEXEndpointParameter → OptEntry
deriving DecidableEq, Repr

def OptEntry.toList : OptEntry → List UEXEndpointParameter
  | .params l => l
  | .single p => [p]

/-- `UEXEndpointDocsParser.create_method_urls_for_all_optional_params`. -/
def create_method_urls_for_all_optional_params (endpointId base_endpoint_path : String)
    (templated : Bool) (optional_params : List OptEntry)
    (required_params : List UEXEndpointParameter) : List UEXEndpointLink :=
  (if optional_params.length == 0 || templated then
    [create_endpoint_url endpointId base_endpoint_path templated [] required_params]
   else [])
  ++ optional_params.map fun o =>
      create_endpoint_url endpointId base_endpoint_path templated o.toList required_params

/-- One iteration of the `for requireds in required_params_x` loop: extend
the (shared, mutable) optional pool with the set difference
`required_params.difference(requireds)` and emit one block of links. -/
def genStep (endpointId base_endpoint_path : String) (templated : Bool)
    (required_params : List UEXEndpointParameter)
    (acc : List UEXEndpointLink × List OptEntry)
    (requireds : List UEXEndpointParameter) : List UEXEndpointLink × List OptEntry :=
  let opts := acc.2 ++
    (required_params.filter fun p => !requireds.contains p).map .single
  (acc.1 ++
    create_method_urls_for_all_optional_params endpointId base_endpoint_path templated
      opts requireds,
   opts)

/-- `UEXEndpointDocsParser.create_method_paths_for_all_params`.

The source iterates Python hash sets (`set(self.get_required_parameters())`
etc.); `required_params` and `optional_params` here carry those sets'
iteration orders as explicit duplicate-free lists, and the set difference
`required_params.difference(requireds)` is modelled as an order-preserving
filter.  `optional_params_x` is a single mutable list shared by all loop
iterations, so the `extend` in `genStep` accumulates across
required-combinations. -/
def create_method_paths_for_all_params (endpointId base_endpoint_path : String)
    (templated : Bool)
    (required_params optional_params : List UEXEndpointParameter) : List UEXEndpointLink :=
  let required_params_x : List (List UEXEndpointParameter) :=
    if required_args_all.contains endpointId then [required_params]
    else required_params.map fun r => [r]
  let optional_params_x : List OptEntry :=
    .params [] :: optional_params.map .single
  let head : List UEXEndpointLink :=
    if required_params_x.length == 0 then
      create_method_urls_for_all_optional_params endpointId base_endpoint_path templated
        optional_params_x []
    else []
  (required_params_x.foldl
    (genStep endpointId base_endpoint_path templated required_params)
    (head, optional_params_x)).1

/-! ### Block characterization of the generator loop (for C1) -/

/-- The sequence of per-required-combination link blocks produced by the
generator loop, starting from the running optional pool `opts`. -/
def expandCombos (endpointId base_endpoint_path : String) (templated : Bool)
    (required_params : List UEXEndpointParameter) :
    List (List UEXEndpointParameter) → List OptEntry → List (List UEXEndpointLink)
  | [], _ => []
  | c :: cs, opts =>
    let opts' := opts ++ (required_params.filter fun p => !c.contains p).map .single
    create_method_urls_for_all_optional_params endpointId base_endpoint_path templated opts' c
      :: expandCombos endpointId base_endpoint_path templated required_params cs opts'

theorem foldl_genStep_eq_join (endpointId base_endpoint_path : String) (templated : Bool)
    (R : List UEXEndpointParameter) :
    ∀ (cs : List (List UEXEndpointParameter)) (acc : List UEXEndpointLink)
      (opts : List OptEntry),
      (cs.foldl (genStep endpointId base_endpoint_path templated R) (acc, opts)).1
        = acc ++ (expandCombos endpointId base_endpoint_path templated R cs opts).flatten
  | [], acc, opts => by simp [expandCombos]
  | c :: cs, acc, opts => by
    rw [List.foldl_cons]
    show (cs.foldl (genStep endpointId base_endpoint_path templated R)
        (genStep endpointId base_endpoint_path templated R (acc, opts) c)).1 = _
    rw [genStep, foldl_genStep_eq_join endpointId base_endpoint_path templated R cs]
    simp [expandCombos, List.append_assoc]

theorem create_method_urls_length (endpointId base_endpoint_path : String)
    (opts : List OptEntry) (c : List UEXEndpointParameter) (h : opts ≠ []) :
    (create_method_urls_for_all_optional_params endpointId base_endpoint_path false
        opts c).length = opts.length := by
  have h0 : (opts.length == 0) = false := by
    simp only [beq_eq_false_iff_ne, ne_eq, List.length_eq_zero]
    exact h
  simp [create_method_urls_for_all_optional_params, h0]

theorem create_method_urls_required_params (endpointId base_endpoint_path : String)
    (templated : Bool) (opts : List OptEntry) (c : List UEXEndpointParameter) :
    ∀ l ∈ create_method_urls_for_all_optional_params endpointId base_endpoint_path templated
        opts c, l.required_params = c := by
  intro l hl
  simp only [create_method_urls_for_all_optional_params, List.mem_append,
    List.mem_map] at hl
  rcases hl with hl | ⟨o, _, rfl⟩
  · rcases hl with hl
    split at hl
    · simp only [List.mem_singleton] at hl
      subst hl
      rfl
    · simp at hl
  · rfl

theorem expandCombos_length (endpointId base_endpoint_path : String) (templated : Bool)
    (R : List UEXEndpointParameter) :
    ∀ (cs : List (List UEXEndpointParameter)) (opts : List OptEntry),
      (expandCombos endpointId base_endpoint_path templated R cs opts).length = cs.length
  | [], _ => rfl
  | c :: cs, opts => by
    simp [expandCombos, expandCombos_length endpointId base_endpoint_path templated R cs]

theorem filter_not_mem_singleton_length {R : List UEXEndpointParameter}
    {r : UEXEndpointParameter} (hnd : R.Nodup) (hr : r ∈ R) :
    (R.filter fun p => !([r] : List UEXEndpointParameter).contains p).length
      = R.length - 1 := by
  have hfun : (fun p => !([r] : List UEXEndpointParameter).contains p)
      = fun p => !(p == r) := by
    funext p
    simp only [List.contains_cons, List.contains_nil, Bool.or_false]
  rw [hfun]
  have hsplit := List.length_eq_length_filter_add (l := R) (fun p => p == r)
  have hcount : (R.filter fun p => p == r).length = 1 := by
    rw [← List.countP_eq_length_filter]
    have : R.countP (fun p => p == r) = R.count r := rfl
    rw [this]
    exact List.count_eq_one_of_mem hnd hr
  omega

theorem expandCombos_spec (endpointId base_endpoint_path : String)
    (R : List UEXEndpointParameter) (hnd : R.Nodup) :
    ∀ (S : List UEXEndpointParameter) (opts : List OptEntry), (∀ r ∈ S, r ∈ R) →
      opts ≠ [] →
      ∀ (k : Nat) (bl : List UEXEndpointLink),
        (expandCombos endpointId base_endpoint_path false R
            (S.map fun r => [r]) opts)[k]? = some bl →
        ∃ r, S[k]? = some r
          ∧ bl.length = opts.length + (k + 1) * (R.length - 1)
          ∧ ∀ l ∈ bl, l.required_params = [r]
  | [], opts, _, _, k, bl => by simp [expandCombos]
  | s :: S, opts, hS, hopts, k, bl => by
    have hlen' : (opts ++ (R.filter fun p =>
        !([s] : List UEXEndpointParameter).contains p).map OptEntry.single).length
        = opts.length + (R.length - 1) := by
      rw [List.length_append, List.length_map,
        filter_not_mem_singleton_length hnd (hS s (List.mem_cons_self s S))]
    match k with
    | 0 =>
      intro h
      simp only [List.map_cons, expandCombos, List.getElem?_cons_zero,
        Option.some.injEq] at h
      subst h
      refine ⟨s, by simp, ?_, ?_⟩
      · rw [create_method_urls_length _ _ _ _ (by simp [hopts]), hlen']
        simp
      · exact create_method_urls_required_params _ _ _ _ _
    | k + 1 =>
      intro h
      simp only [List.map_cons, expandCombos, List.getElem?_cons_succ] at h
      obtain ⟨r, hget, hlen, htag⟩ :=
        expandCombos_spec endpointId base_endpoint_path R hnd S _
          (fun r hr => hS r (List.mem_cons_of_mem s hr))
          (by
            intro hc
            exact hopts (List.append_eq_nil.mp hc).1)
          k bl h
      refine ⟨r, by simpa using hget, ?_, htag⟩
      rw [hlen, hlen']
      have : (k + 1 + 1) * (R.length - 1) = (k + 1) * (R.length - 1) + (R.length - 1) := by
        rw [Nat.succ_mul]
      omega

/-- Two distinct required parameters used for the concrete C1/C3 scenarios. -/
def reqA : UEXEndpointParameter :=
  { name := "id_a", type := "int", length := 0, is_required := true }

def reqB : UEXEndpointParameter :=
  { name := "id_b", type := "int", length := 0, is_required := true }

/-- **C1** (amended): in `ONE_OF_REQUIRED` mode the generator emits one
block per element of the required set `R`, in iteration order, but the
optional pool is a single list that accumulates the set differences across
iterations, so the `k`-th block (0-based) consists of one baseline variant
plus `|O| + (k+1)·(n-1)` single-parameter variants — only the first block
has the `|O| + (n-1)` additional variants the original claim asserts for
every block.  Every link of the `k`-th block carries the `k`-th required
parameter as its required combination. -/
theorem one_of_required_block_counts (endpointId base_endpoint_path : String)
    (R O : List UEXEndpointParameter)
    (hmode : required_args_all.contains endpointId = false)
    (hne : R ≠ []) (hnd : R.Nodup) :
    ∃ blocks : List (List UEXEndpointLink),
      create_method_paths_for_all_params endpointId base_endpoint_path false R O
        = blocks.flatten
      ∧ blocks.length = R.length
      ∧ ∀ (k : Nat) (bl : List UEXEndpointLink), blocks[k]? = some bl →
          ∃ r, R[k]? = some r
            ∧ bl.length = 1 + (O.length + (k + 1) * (R.length - 1))
            ∧ ∀ l ∈ bl, l.required_params = [r] := by
  refine ⟨expandCombos endpointId base_endpoint_path false R (R.map fun r => [r])
      (.params [] :: O.map .single), ?_, ?_, ?_⟩
  · have hx : ((R.map fun r => [r]).length == 0) = false := by
      simp only [List.length_map, beq_eq_false_iff_ne, ne_eq, List.length_eq_zero]
      exact hne
    simp only [create_method_paths_for_all_params, hmode, Bool.false_eq_true, if_false, hx]
    rw [foldl_genStep_eq_join]
    simp
  · rw [expandCombos_length, List.length_map]
  · intro k bl h
    obtain ⟨r, hget, hlen, htag⟩ :=
      expandCombos_spec endpointId base_endpoint_path R hnd R _ (fun r hr => hr)
        (by simp) k bl h
    refine ⟨r, hget, ?_, htag⟩
    rw [hlen]
    simp only [List.length_cons, List.length_map]
    omega

theorem one_of_required_block_counts_witness :
    required_args_all.contains "endpoint" = false
    ∧ ([reqA, reqB] : List UEXEndpointParameter) ≠ []
    ∧ ([reqA, reqB] : List UEXEndpointParameter).Nodup
    ∧ ∃ blocks : List (List UEXEndpointLink),
        create_method_paths_for_all_params "endpoint" "/endpoint" false [reqA, reqB] []
          = blocks.flatten
        ∧ blocks.length = ([reqA, reqB] : List UEXEndpointParameter).length
        ∧ ∀ (k : Nat) (bl : List UEXEndpointLink), blocks[k]? = some bl →
            ∃ r, ([reqA, reqB] : List UEXEndpointParameter)[k]? = some r
              ∧ bl.length = 1 + (([] : List UEXEndpointParameter).length +
                  (k + 1) * (([reqA, reqB] : List UEXEndpointParameter).length - 1))
              ∧ ∀ l ∈ bl, l.required_params = [r] :=
  ⟨by decide, by decide, by decide,
    one_of_required_block_counts "endpoint" "/endpoint" [reqA, reqB] []
      (by decide) (by decide) (by decide)⟩

/-- **C1** counterexample: for required set `{reqA, reqB}` (n = 2) and empty
optional set, the claim predicts `|O| + (n-1) + 1 = 2` variants for every
required-combination, but the block of the second combination (`reqB`)
contains 3 variants, because the optional pool still holds the difference
appended during the first iteration. -/
theorem one_of_required_uniform_count_counterexample :
    ((create_method_paths_for_all_params "endpoint" "/endpoint" false [reqA, reqB] []).filter
        (fun l => l.required_params == [reqB])).length = 3
    ∧ (3 : Nat) ≠ 0 + (2 - 1) + 1 := by
  constructor
  · decide
  · decide

/-- The concrete `commodity` endpoint parameters of the C2 scenario. -/
def commodityReq : UEXEndpointParameter :=
  { name := "id_commodity", type := "int", length := 11, is_required := true }

def commodityOpt : UEXEndpointParameter :=
  { name := "id_terminal", type := "int", length := 11, is_required := false }

/-- **C2** counterexample: the generator renders a required parameter as
`/name/value/`, so the `commodity` scenario yields
`/commodity/id_commodity/33/` (with trailing slash and the parameter name
in the path), not the claimed `/commodity/33`. -/
theorem commodity_scenario_counterexample :
    (create_method_paths_for_all_params "commodity" "/commodity" false
        [commodityReq] [commodityOpt]).map UEXEndpointLink.link
      = ["/commodity/id_commodity/33/", "/commodity/id_commodity/33/?id_terminal=74"]
    ∧ ("/commodity/id_commodity/33/" : String) ≠ "/commodity/33"
    ∧ ("/commodity/id_commodity/33/?id_terminal=74" : String)
        ≠ "/commodity/33?id_terminal=74" := by
  refine ⟨by decide, by decide, by decide⟩

/-- **C2** (amended): with required set `{id_commodity}`, optional set
`{id_terminal}`, base path `/commodity` and defaults `id_commodity = 33`,
`id_terminal = 74`, the generator emits exactly the two variants
`/commodity/id_commodity/33/` and `/commodity/id_commodity/33/?id_terminal=74`,
in this order, both tagged with the required combination `[id_commodity]`. -/
theorem commodity_scenario_variants :
    create_method_paths_for_all_params "commodity" "/commodity" false
        [commodityReq] [commodityOpt]
      = [{ link := "/commodity/id_commodity/33/", required_params := [commodityReq] },
         { link := "/commodity/id_commodity/33/?id_terminal=74",
           required_params := [commodityReq] }] := by
  decide

/-- **C3** counterexample: the source converts the declared parameter
sequences to Python hash sets and iterates those, so the output is a
function of the sets' (unspecified) iteration order: the same declared
required set `{reqA, reqB}`, presented in the two possible iteration
orders, produces different variant sequences. -/
theorem declared_order_determinism_counterexample :
    ([reqA, reqB] : List UEXEndpointParameter).Perm [reqB, reqA]
    ∧ create_method_paths_for_all_params "endpoint" "/endpoint" false [reqA, reqB] []
        ≠ create_method_paths_for_all_params "endpoint" "/endpoint" false [reqB, reqA] [] := by
  refine ⟨by decide, by decide⟩

/-- **C3** (amended): variant generation is deterministic only relative to
the iteration order of the required/optional hash sets; permuting the
required set's iteration order changes not just the sequence but even the
multiset of emitted variants (the folded-in "required parameter as query
probe" variants differ). -/
theorem set_iteration_order_changes_variants :
    ¬ (create_method_paths_for_all_params "endpoint" "/endpoint" false [reqA, reqB] []).Perm
        (create_method_paths_for_all_params "endpoint" "/endpoint" false [reqB, reqA] []) := by
  decide

/-! ### Document tree model (`OpenAPIManager`)

The specification document handled by `OpenAPIManager` is the tree of
YAML-loaded values: dicts (insertion-ordered), lists, and scalars. -/

inductive Scalar where
  | str : String → Scalar
  | int : Int → Scalar
  | bool : Bool → Scalar
  | null : Scalar
deriving DecidableEq, Repr

/-- Python `==` on scalar leaves.  `bool` is an `int` subclass in Python,
so `True == 1` and `False == 0`; all other cross-type comparisons between
the scalar kinds of a YAML document are `False`. -/
def pyEq : Scalar → Scalar → Bool
  | .str a, .str b => a == b
  | .int a, .int b => a == b
  | .bool a, .bool b => a == b
  | .bool a, .int b => (if a then (1 : Int) else 0) == b
  | .int a, .bool b => a == (if b then (1 : Int) else 0)
  | .null, .null => true
  | _, _ => false

inductive Node where
  | obj : List (String × Node) → Node
  | arr : List Node → Node
  | scalar : Scalar → Node

/-- Well-formedness of a document tree as produced by a YAML load: every
dict has pairwise-distinct keys. -/
def nodupKeys {α : Type} : List (String × α) → Bool
  | [] => true
  | (k, _) :: rest => !assocContains k rest && nodupKeys rest

mutual

def Node.wf : Node → Bool
  | .obj kvs => nodupKeys kvs && wfFields kvs
  | .arr xs => wfElems xs
  | .scalar _ => true

def wfFields : List (String × Node) → Bool
  | [] => true
  | (_, v) :: rest => Node.wf v && wfFields rest

def wfElems : List Node → Bool
  | [] => true
  | x :: rest => Node.wf x && wfElems rest

end

mutual

/-- `copy.deepcopy` of a document tree. -/
def deep_copy : Node → Node
  | .obj kvs => .obj (deepCopyFields kvs)
  | .arr xs => .arr (deepCopyElems xs)
  | .scalar s => .scalar s

def deepCopyFields : List (String × Node) → List (String × Node)
  | [] => []
  | (k, v) :: rest => (k, deep_copy v) :: deepCopyFields rest

def deepCopyElems : List Node → List Node
  | [] => []
  | x :: rest => deep_copy x :: deepCopyElems rest

end

/-! ### `OpenAPIManager.deep_equals` -/

mutual

/-- `OpenAPIManager.deep_equals`.  Dicts: every key of `item1` must be in
`item2` with recursively equal value, and afterwards `item2` must have no
key left over (the source removes the visited keys from `set(item2.keys())`
and checks the set is empty).  Lists: equal length and index-wise recursive
equality.  Everything else: Python `==` on the leaves (`False` across
kinds). -/
def deep_equals : Node → Node → Bool
  | .obj kvs1, .obj kvs2 =>
    deepEqObj kvs1 kvs2 && kvs2.all fun kv => assocContains kv.1 kvs1
  | .arr xs, .arr ys => (xs.length == ys.length) && deepEqList xs ys
  | .scalar a, .scalar b => pyEq a b
  | _, _ => false

def deepEqObj : List (String × Node) → List (String × Node) → Bool
  | [], _ => true
  | (k, v) :: rest, kvs2 =>
    (match assocLookup k kvs2 with
     | some v2 => deep_equals v v2
     | none => false) && deepEqObj rest kvs2

def deepEqList : List Node → List Node → Bool
  | [], _ => true
  | _ :: _, [] => true
  | x :: xs, y :: ys => deep_equals x y && deepEqList xs ys

end

/-! ### Specification-side structural equality (refinement target for C4)

`structuralEqualWith sc` follows the spec's wording: Object nodes are equal
iff they have identical key sets and every corresponding value is
recursively equal; Array nodes are equal iff same length and index-wise
equal; scalar leaves are compared by the parameter `sc`.  Instantiating
`sc` with typed equality `(· == ·)` gives the claim's "value and type"
reading; instantiating it with `pyEq` gives the code's behavior. -/

mutual

def structuralEqualWith (sc : Scalar → Scalar → Bool) : Node → Node → Bool
  | .obj kvs1, .obj kvs2 =>
    ((kvs1.all fun kv => assocContains kv.1 kvs2)
      && kvs2.all fun kv => assocContains kv.1 kvs1)
      && specObjVals sc kvs1 kvs2
  | .arr xs, .arr ys => (xs.length == ys.length) && specArrVals sc xs ys
  | .scalar a, .scalar b => sc a b
  | _, _ => false

def specObjVals (sc : Scalar → Scalar → Bool) :
    List (String × Node) → List (String × Node) → Bool
  | [], _ => true
  | (k, v) :: rest, kvs2 =>
    (match assocLookup k kvs2 with
     | some v2 => structuralEqualWith sc v v2
     | none => false) && specObjVals sc rest kvs2

def specArrVals (sc : Scalar → Scalar → Bool) : List Node → List Node → Bool
  | [], _ => true
  | _ :: _, [] => true
  | x :: xs, y :: ys => structuralEqualWith sc x y && specArrVals sc xs ys

end

/-! ### `OpenAPIManager.add_new_schema` (the schema catalog) -/

/-- The state relevant to the catalog operations: the
`components.schemas` mapping of the managed document, plus the list of
reported name conflicts (`log.error` calls). -/
structure OpenAPISchemas where
  entries : List (String × Node)
  conflicts : List String

/-- `OpenAPIManager.add_new_schema`: a new name stores a deep copy of the
supplied tree at the end of the mapping; an existing name is kept, and a
structurally different tree is reported as a conflict. -/
def add_new_schema (c : OpenAPISchemas) (name : String) (schema : Node) : OpenAPISchemas :=
  match assocLookup name c.entries with
  | none => { c with entries := c.entries ++ [(name, deep_copy schema)] }
  | some existing_schema =>
    if deep_equals existing_schema schema then c
    else { c with conflicts := c.conflicts ++ [name] }

/-! ### `OpenAPIManager.update_path_data` -/

/-- `dict.update(u)`: assign every binding of `u` into `d` in order. -/
def dictUpdate (d u : List (String × Node)) : List (String × Node) :=
  u.foldl (fun acc kv => assocSet acc kv.1 kv.2) d

/-- The loop body of `update_path_data` for one operation's attribute
dict: when `data_by_path` has an entry for this path and operation,
`dict.update` it in; otherwise (`log.warning`) leave the attributes as
they are. -/
def updateProps (data_by_path : List (String × List (String × List (String × Node))))
    (schema_path schema_operation : String)
    (schema_operation_props : List (String × Node)) : List (String × Node) :=
  match assocLookup schema_path data_by_path with
  | some path_operation_mapping =>
    match assocLookup schema_operation path_operation_mapping with
    | some d => dictUpdate schema_operation_props d
    | none => schema_operation_props
  | none => schema_operation_props

def updateOps (data_by_path : List (String × List (String × List (String × Node))))
    (schema_path : String) (ops : List (String × List (String × Node))) :
    List (String × List (String × Node)) :=
  ops.map fun mprops => (mprops.1, updateProps data_by_path schema_path mprops.1 mprops.2)

/-- `OpenAPIManager.update_path_data`: walk the document's existing
`paths` section; where `data_by_path` supplies data for an existing
`(path, operation)` pair, `dict.update` it into the operation's
attributes; otherwise leave the operation unchanged.  The iteration is
over the document, so pairs present only in `data_by_path` are never
added. -/
def update_path_data
    (paths : List (String × List (String × List (String × Node))))
    (data_by_path : List (String × List (String × List (String × Node)))) :
    List (String × List (String × List (String × Node))) :=
  paths.map fun pops => (pops.1, updateOps data_by_path pops.1 pops.2)

/-! ### `OpenAPIManager.deep_get_overwrite` -/

/-- `OpenAPIManager.deep_get_overwrite(d, keys, value)`, with the in-place
mutation made explicit: the result is `(updated tree, returned node)`.
Branches mirror the source in order: (1) one key left and a value to
write: `d[keys[0]] = value; return d` (a non-dict raises); (2) keys left:
a dict ensures the key (`d[key] = {}` when missing — also in read mode)
and recurses on `d.get(key)`, a non-dict raises; (3) no keys: return `d`. -/
def deep_get_overwrite (d : Node) : List String → Option Node →
    Except String (Node × Node)
  | [], _ => .ok (d, d)
  | [k], some value =>
    match d with
    | .obj kvs =>
      let d' := Node.obj (assocSet kvs k value)
      .ok (d', d')
    | _ => .error "item assignment on non-dict"
  | k :: rest, value =>
    match d with
    | .obj kvs =>
      let kvs1 := if assocContains k kvs then kvs else kvs ++ [(k, Node.obj [])]
      let child := (assocLookup k kvs1).getD (Node.obj [])
      match deep_get_overwrite child rest value with
      | .ok (child', ret) => .ok (Node.obj (assocSet kvs1 k child'), ret)
      | .error e => .error e
    | _ => .error "expected dict"

/-- Specification-side read-only path resolution (`resolvePath` in the
spec): the node at `path`, or `none` when a segment is missing or a
non-dict is traversed. -/
def resolvePath : Node → List String → Option Node
  | d, [] => some d
  | .obj kvs, k :: rest =>
    match assocLookup k kvs with
    | some v => resolvePath v rest
    | none => none
  | _, _ :: _ => none

/-! ### `OpenAPIManager.consolidate_recursive_object_references` -/

def refStr (name : String) : String := "#/components/schemas/" ++ name

/-- The replacement dict `{"$ref": "#/components/schemas/<name>"}`. -/
def refNode (name : String) : Node := .obj [("$ref", .scalar (.str (refStr name)))]

/-- Python membership test `key in node` for the node kinds the
consolidation pass meets: a key test on a dict.  (On a list the source
would compare the key against the elements — never true for the schema
documents considered here — and on a scalar it would raise.) -/
def pyHasKey (k : String) : Node → Bool
  | .obj kvs => assocContains k kvs
  | _ => false

/-- The catalog scan of the non-`items` branch.  The loop uses `continue`
rather than `break`, and `prop_values` is a stale reference to the
original node after `schema_props[prop_name]` is rebound, so every entry
structurally equal to the ORIGINAL node rewrites the property again: the
last structural match in catalog iteration order is the one that sticks. -/
def lastMatch (catalog : List (String × Node)) (v : Node) : Option String :=
  catalog.foldl (fun acc e => if deep_equals v e.2 then some e.1 else acc) none

/-- The catalog scan of the `items` branch.  Here the slot
`prop_values["items"]` is re-read on every comparison, so after the first
rewrite the scan compares later entries against the written reference
node. -/
def itemsFold (catalog : List (String × Node)) (it : Node) : Node :=
  catalog.foldl (fun cur e => if deep_equals cur e.2 then refNode e.1 else cur) it

mutual

/-- `process_schema` inside `consolidate_recursive_object_references`:
if the schema dict has a `properties` key, process that dict's entries;
everything else is untouched.  (A non-dict `properties` value would raise
in the source.) -/
def process_schema (catalog : List (String × Node)) : Node → Node
  | .obj kvs => .obj (processTopFields catalog kvs)
  | other => other

/-- The `schema["properties"]` access: the binding with key `properties`
is transformed, all other bindings are untouched. -/
def processTopFields (catalog : List (String × Node)) :
    List (String × Node) → List (String × Node)
  | [] => []
  | (k, v) :: rest =>
    (if k == "properties" then (k, processPropsNode catalog v) else (k, v))
      :: processTopFields catalog rest

def processPropsNode (catalog : List (String × Node)) : Node → Node
  | .obj pkvs => .obj (processProps catalog pkvs)
  | other => other

/-- One `for prop_name, prop_values in schema_props.items()` iteration per
binding.  `items` branch: an inline (non-`$ref`) `items` slot is rewritten
by the running catalog scan, and there is no recursion into the property.
Non-`items`, non-`$ref` branch: a structural match rewrites the property
to a reference (the trailing `process_schema(prop_values)` call then only
mutates the detached original node, with no effect on the document);
without any match the recursion into the property is visible. -/
def processProps (catalog : List (String × Node)) :
    List (String × Node) → List (String × Node)
  | [] => []
  | (prop_name, prop_values) :: rest =>
    (prop_name,
      if pyHasKey "items" prop_values then
        match prop_values with
        | .obj pkvs =>
          let it := (assocLookup "items" pkvs).getD (.obj [])
          if pyHasKey "$ref" it then prop_values
          else .obj (assocSet pkvs "items" (itemsFold catalog it))
        | other => other
      else if pyHasKey "$ref" prop_values then prop_values
      else
        match lastMatch catalog prop_values with
        | some nm => refNode nm
        | none => process_schema catalog prop_values)
      :: processProps catalog rest

end

/-- `consolidate_recursive_object_references`: every catalog entry is
processed in insertion order, in place — the scans of a later entry see
the already-rewritten earlier entries.  (The source additionally lets the
scans of a schema see that same schema's partially rewritten state; the
properties considered here are settled one entry at a time.) -/
def consolidate_recursive_object_references
    (schemas : List (String × Node)) : List (String × Node) :=
  (schemas.map Prod.fst).foldl
    (fun cat nm =>
      match assocLookup nm cat with
      | some sch => assocSet cat nm (process_schema cat sch)
      | none => cat)
    schemas

/-! ### `OpenAPIManager.extract_schemas` -/

/-- The body of the `extract_schemas` loop for one selector, already split
into the root-schema name and the property path.  A missing root schema is
a reported skip; otherwise the path is read (mutating the stored schema if
segments are missing), the resolved node is registered under `ref` via
`add_new_schema`, and the location is unconditionally overwritten with a
`$ref` to `ref` — also when the registration just reported a conflict. -/
def extract_schema_for (c : OpenAPISchemas) (target_schema : String)
    (target_prop_path : List String) (ref : String) : Except String OpenAPISchemas :=
  match assocLookup target_schema c.entries with
  | none => .ok c
  | some schema =>
    match deep_get_overwrite schema target_prop_path none with
    | .error e => .error e
    | .ok (schema1, new_schema_props) =>
      let c1 : OpenAPISchemas :=
        { c with entries := assocSet c.entries target_schema schema1 }
      let c2 := add_new_schema c1 ref new_schema_props
      match deep_get_overwrite schema1 target_prop_path (some (refNode ref)) with
      | .error e => .error e
      | .ok (schema2, _) =>
        .ok { c2 with entries := assocSet c2.entries target_schema schema2 }

/-- `OpenAPIManager.extract_schemas` over a selector table
(`schema_name_by_property_path` in the source): each dotted selector is
split on `.` into the root schema name and the property path. -/
def extract_schemas (c : OpenAPISchemas) (table : List (String × String)) :
    Except String OpenAPISchemas :=
  table.foldlM
    (fun c sel =>
      match sel.1.splitOn "." with
      | [] => pure c
      | target_schema :: target_prop_path =>
        extract_schema_for c target_schema target_prop_path sel.2)
    c

/-! ### Association-list lemmas -/

theorem assocContains_eq_isSome {α : Type} (k : String) :
    ∀ l : List (String × α), assocContains k l = (assocLookup k l).isSome := by
  intro l
  induction l with
  | nil => rfl
  | cons kv rest ih =>
    by_cases hk : kv.1 = k
    · subst hk
      simp [assocContains, assocLookup]
    · have h1 : (k == kv.1) = false := by
        simp [Ne.symm hk]
      have h2 : (kv.1 == k) = false := by
        simp [hk]
      simp only [assocContains, List.map_cons, List.contains_cons, h1, Bool.false_or,
        assocLookup, h2, Bool.false_eq_true, if_false]
      exact ih

theorem assocLookup_assocSet_self {α : Type} (k : String) (v : α) :
    ∀ l : List (String × α), assocLookup k (assocSet l k v) = some v := by
  intro l
  induction l with
  | nil => simp [assocSet, assocLookup]
  | cons kv rest ih =>
    by_cases hk : kv.1 = k
    · simp [assocSet, hk, assocLookup]
    · have h2 : (kv.1 == k) = false := by
        simp [hk]
      simp [assocSet, h2, assocLookup, ih]

theorem assocLookup_assocSet_other {α : Type} (k k' : String) (v : α) (hkk : k' ≠ k) :
    ∀ l : List (String × α), assocLookup k' (assocSet l k v) = assocLookup k' l := by
  intro l
  have hk : (k == k') = false := by
    simp [Ne.symm hkk]
  induction l with
  | nil => simp [assocSet, assocLookup, hk]
  | cons kv rest ih =>
    by_cases h : kv.1 = k
    · subst h
      simp only [assocSet, beq_self_eq_true, if_true, assocLookup, hk,
        Bool.false_eq_true, if_false]
    · have h2 : (kv.1 == k) = false := by
        simp [h]
      simp only [assocSet, h2, Bool.false_eq_true, if_false, assocLookup]
      by_cases h3 : kv.1 = k'
      · simp [h3]
      · have h4 : (kv.1 == k') = false := by
          simp [h3]
        simp [h4, ih]

theorem assocSet_self_of_lookup {α : Type} (k : String) (v : α) :
    ∀ l : List (String × α), assocLookup k l = some v → assocSet l k v = l := by
  intro l
  induction l with
  | nil => intro h; simp [assocLookup] at h
  | cons kv rest ih =>
    obtain ⟨k1, v1⟩ := kv
    intro h
    by_cases hk : k1 = k
    · subst hk
      simp only [assocLookup, beq_self_eq_true, if_true, Option.some.injEq] at h
      subst h
      simp [assocSet]
    · have h2 : (k1 == k) = false := by
        simp [hk]
      simp only [assocLookup, h2, Bool.false_eq_true, if_false] at h
      simp [assocSet, h2, ih h]

theorem assocLookup_append_left {α : Type} (k : String) (v : α) :
    ∀ l1 l2 : List (String × α), assocLookup k l1 = some v →
      assocLookup k (l1 ++ l2) = some v := by
  intro l1 l2
  induction l1 with
  | nil => intro h; simp [assocLookup] at h
  | cons kv rest ih =>
    intro h
    by_cases hk : kv.1 = k
    · simp only [assocLookup, hk, beq_self_eq_true, if_true] at h ⊢
      exact h
    · have h2 : (kv.1 == k) = false := by
        simp [hk]
      simp only [assocLookup, h2, Bool.false_eq_true, if_false, List.cons_append] at h ⊢
      exact ih h

theorem assocLookup_append_right {α : Type} (k : String) :
    ∀ l1 l2 : List (String × α), assocLookup k l1 = none →
      assocLookup k (l1 ++ l2) = assocLookup k l2 := by
  intro l1 l2
  induction l1 with
  | nil => intro _; rfl
  | cons kv rest ih =>
    intro h
    by_cases hk : kv.1 = k
    · simp [assocLookup, hk] at h
    · have h2 : (kv.1 == k) = false := by
        simp [hk]
      simp only [assocLookup, h2, Bool.false_eq_true, if_false, List.cons_append] at h ⊢
      exact ih h

/-! ### C4: `deep_equals` against the spec's structural equality -/

theorem deep_equals_eq_structural_pyEq :
    ∀ a b, deep_equals a b = structuralEqualWith pyEq a b := by
  intro a b
  refine deep_equals.induct
    (fun a b => deep_equals a b = structuralEqualWith pyEq a b)
    (fun xs ys => deepEqList xs ys = specArrVals pyEq xs ys)
    (fun l1 l2 => deepEqObj l1 l2 = specObjVals pyEq l1 l2
      ∧ (deepEqObj l1 l2 = true → (l1.all fun kv => assocContains kv.1 l2) = true))
    ?_ ?_ ?_ ?_ ?_ ?_ ?_ ?_ ?_ a b
  · intro kvs1 kvs2 hm
    obtain ⟨he, hk⟩ := hm
    show (deepEqObj kvs1 kvs2 && kvs2.all fun kv => assocContains kv.1 kvs1)
      = (((kvs1.all fun kv => assocContains kv.1 kvs2)
          && kvs2.all fun kv => assocContains kv.1 kvs1)
        && specObjVals pyEq kvs1 kvs2)
    cases hE : deepEqObj kvs1 kvs2 with
    | true =>
      rw [hE] at he
      rw [← he, hk hE]
      simp
    | false =>
      rw [hE] at he
      rw [← he]
      simp
  · intro xs ys hm
    show ((xs.length == ys.length) && deepEqList xs ys)
      = ((xs.length == ys.length) && specArrVals pyEq xs ys)
    rw [hm]
  · intro a b
    rfl
  · intro t x h1 h2 h3
    cases t with
    | obj kvs1 =>
      cases x with
      | obj kvs2 => exact (h1 kvs1 kvs2 rfl rfl).elim
      | arr ys => rfl
      | scalar s => rfl
    | arr xs =>
      cases x with
      | obj kvs2 => rfl
      | arr ys => exact (h2 xs ys rfl rfl).elim
      | scalar s => rfl
    | scalar a =>
      cases x with
      | obj kvs2 => rfl
      | arr ys => rfl
      | scalar b => exact (h3 a b rfl rfl).elim
  · intro l2
    exact ⟨rfl, fun _ => rfl⟩
  · intro k v rest kvs2 ih1 ih2
    constructor
    · show ((match assocLookup k kvs2 with
          | some v2 => deep_equals v v2
          | none => false) && deepEqObj rest kvs2)
        = ((match assocLookup k kvs2 with
          | some v2 => structuralEqualWith pyEq v v2
          | none => false) && specObjVals pyEq rest kvs2)
      cases hl : assocLookup k kvs2 with
      | none => simp [ih2.1]
      | some v2 => simp [ih1 v2, ih2.1]
    · intro h
      show (((k, v) :: rest).all fun kv => assocContains kv.1 kvs2) = true
      have h' : ((match assocLookup k kvs2 with
          | some v2 => deep_equals v v2
          | none => false) && deepEqObj rest kvs2) = true := h
      rw [Bool.and_eq_true] at h'
      have hcon : assocContains k kvs2 = true := by
        cases hl : assocLookup k kvs2 with
        | none =>
          rw [hl] at h'
          simp at h'
        | some v2 =>
          rw [assocContains_eq_isSome, hl]
          rfl
      simp only [List.all_cons, hcon, Bool.true_and]
      exact ih2.2 h'.2
  · intro ys
    rfl
  · intro x xs
    rfl
  · intro x xs y ys ih1 ih2
    show (deep_equals x y && deepEqList xs ys)
      = (structuralEqualWith pyEq x y && specArrVals pyEq xs ys)
    rw [ih1, ih2]

theorem string_append_right_inj (s a b : String) : (s ++ a = s ++ b) ↔ a = b := by
  constructor
  · intro h
    have hd : (s ++ a).data = (s ++ b).data := by rw [h]
    simp only [String.data_append] at hd
    exact String.ext (List.append_cancel_left hd)
  · intro h
    rw [h]

theorem deep_equals_refNode_eq (n1 n2 : String) :
    deep_equals (refNode n1) (refNode n2) = (n1 == n2) := by
  have hread : deep_equals (refNode n1) (refNode n2) = (refStr n1 == refStr n2) := by
    simp [refNode, deep_equals, deepEqObj, assocLookup, pyEq, assocContains]
  rw [hread]
  by_cases h : n1 = n2
  · rw [h]
    simp
  · have h2 : refStr n1 ≠ refStr n2 := by
      intro hc
      exact h ((string_append_right_inj "#/components/schemas/" n1 n2).mp hc)
    simp [h, h2]

/-- **C4** counterexample: in the `else` branch, `deep_equals` falls back
to Python `==`, and `True == 1` in Python — so the boolean scalar `true`
and the integer scalar `1` are `deep_equals`-equal although they differ in
type, contradicting the claimed "Scalars compare by both value and type". -/
theorem deep_equals_scalar_type_counterexample :
    deep_equals (.scalar (.bool true)) (.scalar (.int 1)) = true
    ∧ structuralEqualWith (fun a b => a == b) (.scalar (.bool true)) (.scalar (.int 1)) = false
    ∧ Scalar.bool true ≠ Scalar.int 1 := by
  refine ⟨by decide, by decide, by decide⟩

/-- **C4** (amended): `deep_equals` decides the spec's structural equality
for every pair of trees — identical key sets with recursively equal values
for Object nodes (key order irrelevant), same length and index-wise
equality for Array nodes (order-sensitive: `[1,2]` vs `[2,1]` is false),
and Reference nodes by target name only — except that scalar leaves
compare by Python `==`, under which a boolean equals its numeric value
(`True == 1`, `False == 0`); all other scalar comparisons are by value and
type. -/
theorem deep_equals_decides_structural_equality :
    (∀ a b, deep_equals a b = structuralEqualWith pyEq a b)
    ∧ deep_equals (.arr [.scalar (.int 1), .scalar (.int 2)])
        (.arr [.scalar (.int 2), .scalar (.int 1)]) = false
    ∧ (∀ n1 n2, deep_equals (refNode n1) (refNode n2) = (n1 == n2)) :=
  ⟨deep_equals_eq_structural_pyEq, by decide, deep_equals_refNode_eq⟩

/-! ### Reflexivity of `deep_equals` on well-formed trees -/

theorem deep_copy_eq : ∀ a, deep_copy a = a := by
  intro a
  refine deep_copy.induct
    (fun a => deep_copy a = a)
    (fun l => deepCopyElems l = l)
    (fun l => deepCopyFields l = l)
    ?_ ?_ ?_ ?_ ?_ ?_ ?_ a
  · intro kvs ih
    show Node.obj (deepCopyFields kvs) = Node.obj kvs
    rw [ih]
  · intro xs ih
    show Node.arr (deepCopyElems xs) = Node.arr xs
    rw [ih]
  · intro s
    rfl
  · rfl
  · intro k v rest ih1 ih2
    show (k, deep_copy v) :: deepCopyFields rest = (k, v) :: rest
    rw [ih1, ih2]
  · rfl
  · intro x rest ih1 ih2
    show deep_copy x :: deepCopyElems rest = x :: rest
    rw [ih1, ih2]

theorem node_sizeOf_pos (a : Node) : 0 < sizeOf a := by
  cases a <;> simp_arith

theorem assocContains_of_mem {α : Type} {p : String × α} :
    ∀ {l : List (String × α)}, p ∈ l → assocContains p.1 l = true := by
  intro l hp
  rw [assocContains_eq_isSome]
  induction l with
  | nil => cases hp
  | cons kv rest ih =>
    rcases List.mem_cons.mp hp with h | h
    · subst h
      simp [assocLookup]
    · by_cases hk : kv.1 = p.1
      · simp [assocLookup, hk]
      · have h2 : (kv.1 == p.1) = false := by
          simp [hk]
        simp only [assocLookup, h2, Bool.false_eq_true, if_false]
        exact ih h

theorem nodupKeys_lookup_self {α : Type} :
    ∀ {l : List (String × α)}, nodupKeys l = true →
      ∀ p ∈ l, assocLookup p.1 l = some p.2 := by
  intro l
  induction l with
  | nil => intro _ p hp; cases hp
  | cons kv rest ih =>
    intro hnd p hp
    obtain ⟨k0, v0⟩ := kv
    have hnd' : (!assocContains k0 rest && nodupKeys rest) = true := hnd
    rw [Bool.and_eq_true, Bool.not_eq_true'] at hnd'
    rcases List.mem_cons.mp hp with h | h
    · subst h
      simp [assocLookup]
    · by_cases hk : k0 = p.1
      · exact absurd hnd'.1 (by rw [hk, assocContains_of_mem h]; simp)
      · have h2 : (k0 == p.1) = false := by
          simp [hk]
        simp only [assocLookup, h2, Bool.false_eq_true, if_false]
        exact ih hnd'.2 p h

theorem wfFields_mem :
    ∀ {l : List (String × Node)}, wfFields l = true → ∀ p ∈ l, Node.wf p.2 = true := by
  intro l
  induction l with
  | nil => intro _ p hp; cases hp
  | cons kv rest ih =>
    intro hwf p hp
    obtain ⟨k0, v0⟩ := kv
    have hwf' : (Node.wf v0 && wfFields rest) = true := hwf
    rw [Bool.and_eq_true] at hwf'
    rcases List.mem_cons.mp hp with h | h
    · subst h
      exact hwf'.1
    · exact ih hwf'.2 p h

theorem wfElems_mem :
    ∀ {l : List Node}, wfElems l = true → ∀ x ∈ l, Node.wf x = true := by
  intro l
  induction l with
  | nil => intro _ x hx; cases hx
  | cons y rest ih =>
    intro hwf x hx
    have hwf' : (Node.wf y && wfElems rest) = true := hwf
    rw [Bool.and_eq_true] at hwf'
    rcases List.mem_cons.mp hx with h | h
    · subst h
      exact hwf'.1
    · exact ih hwf'.2 x h

theorem deepEqObj_of_forall :
    ∀ (l kvs2 : List (String × Node)),
      (∀ p ∈ l, ∃ v2, assocLookup p.1 kvs2 = some v2 ∧ deep_equals p.2 v2 = true) →
      deepEqObj l kvs2 = true
  | [], _, _ => rfl
  | (k, v) :: rest, kvs2, h => by
    obtain ⟨v2, hl, he⟩ := h (k, v) (List.mem_cons_self _ _)
    have he' : deep_equals v v2 = true := he
    show ((match assocLookup k kvs2 with
        | some v2 => deep_equals v v2
        | none => false) && deepEqObj rest kvs2) = true
    rw [hl]
    show (deep_equals v v2 && deepEqObj rest kvs2) = true
    rw [he', deepEqObj_of_forall rest kvs2
      (fun p hp => h p (List.mem_cons_of_mem _ hp))]
    rfl

theorem deepEqList_refl_of :
    ∀ l : List Node, (∀ x ∈ l, deep_equals x x = true) → deepEqList l l = true
  | [], _ => rfl
  | x :: rest, h => by
    show (deep_equals x x && deepEqList rest rest) = true
    rw [h x (List.mem_cons_self _ _),
      deepEqList_refl_of rest (fun y hy => h y (List.mem_cons_of_mem _ hy))]
    rfl

theorem pyEq_refl (s : Scalar) : pyEq s s = true := by
  cases s <;> simp [pyEq]

theorem deep_equals_refl_aux :
    ∀ (n : Nat) (a : Node), sizeOf a ≤ n → Node.wf a = true → deep_equals a a = true := by
  intro n
  induction n with
  | zero =>
    intro a h
    exact absurd h (by have := node_sizeOf_pos a; omega)
  | succ n IH =>
    intro a hle hwf
    match a with
    | .obj kvs =>
      have hwf' : (nodupKeys kvs && wfFields kvs) = true := hwf
      rw [Bool.and_eq_true] at hwf'
      show (deepEqObj kvs kvs && kvs.all fun kv => assocContains kv.1 kvs) = true
      rw [Bool.and_eq_true]
      constructor
      · apply deepEqObj_of_forall
        intro p hp
        refine ⟨p.2, nodupKeys_lookup_self hwf'.1 p hp, ?_⟩
        apply IH
        · have h1 := List.sizeOf_lt_of_mem hp
          have h2 : sizeOf (Node.obj kvs) = 1 + sizeOf kvs := by simp
          have h3 : sizeOf p.2 < sizeOf p := by
            obtain ⟨x, y⟩ := p
            simp_arith
          omega
        · exact wfFields_mem hwf'.2 p hp
      · rw [List.all_eq_true]
        intro kv hkv
        exact assocContains_of_mem hkv
    | .arr xs =>
      show ((xs.length == xs.length) && deepEqList xs xs) = true
      rw [Bool.and_eq_true]
      refine ⟨by simp, ?_⟩
      apply deepEqList_refl_of
      intro x hx
      apply IH
      · have h1 := List.sizeOf_lt_of_mem hx
        have h2 : sizeOf (Node.arr xs) = 1 + sizeOf xs := by simp
        omega
      · exact wfElems_mem hwf x hx
    | .scalar s =>
      exact pyEq_refl s

theorem deep_equals_refl (a : Node) (hwf : Node.wf a = true) : deep_equals a a = true :=
  deep_equals_refl_aux (sizeOf a) a le_rfl hwf

/-! ### C5 / C6: catalog insertion -/

/-- **C5**: a name already stored in the catalog is never replaced or
mutated by a later `add_new_schema` call — any later insertion leaves the
stored tree reachable unchanged — and a later insertion under the same
name with a structurally different tree leaves the entries untouched and
reports exactly one conflict. -/
theorem add_new_schema_first_writer_wins (c : OpenAPISchemas) (n n' : String)
    (s e : Node) (h : assocLookup n c.entries = some e) :
    assocLookup n (add_new_schema c n' s).entries = some e
    ∧ (n' = n → deep_equals e s = false →
        (add_new_schema c n' s).entries = c.entries
        ∧ (add_new_schema c n' s).conflicts = c.conflicts ++ [n]) := by
  cases hl : assocLookup n' c.entries with
  | none =>
    constructor
    · simp only [add_new_schema, hl]
      exact assocLookup_append_left n e c.entries _ h
    · intro hn
      subst hn
      rw [h] at hl
      cases hl
  | some ex =>
    by_cases hde : deep_equals ex s = true
    · constructor
      · simp only [add_new_schema, hl, hde, if_true]
        exact h
      · intro hn hfalse
        subst hn
        rw [h] at hl
        cases hl
        rw [hde] at hfalse
        cases hfalse
    · rw [Bool.not_eq_true] at hde
      constructor
      · simp only [add_new_schema, hl, hde, Bool.false_eq_true, if_false]
        exact h
      · intro hn _
        subst hn
        rw [h] at hl
        cases hl
        simp [add_new_schema, h, hde]

theorem add_new_schema_first_writer_wins_witness :
    assocLookup "Foo"
        (add_new_schema
          { entries := [("Foo", Node.obj [("type", .scalar (.str "string"))])],
            conflicts := [] }
          "Foo" (Node.obj [("type", .scalar (.str "number"))])).entries
      = some (Node.obj [("type", .scalar (.str "string"))])
    ∧ (add_new_schema
          { entries := [("Foo", Node.obj [("type", .scalar (.str "string"))])],
            conflicts := [] }
          "Foo" (Node.obj [("type", .scalar (.str "number"))])).entries
      = [("Foo", Node.obj [("type", .scalar (.str "string"))])]
    ∧ (add_new_schema
          { entries := [("Foo", Node.obj [("type", .scalar (.str "string"))])],
            conflicts := [] }
          "Foo" (Node.obj [("type", .scalar (.str "number"))])).conflicts
      = ["Foo"] := by
  have h := add_new_schema_first_writer_wins
    { entries := [("Foo", Node.obj [("type", .scalar (.str "string"))])],
      conflicts := [] }
    "Foo" "Foo"
    (Node.obj [("type", .scalar (.str "number"))])
    (Node.obj [("type", .scalar (.str "string"))])
    rfl
  obtain ⟨h1, h2⟩ := h
  obtain ⟨h3, h4⟩ := h2 rfl (by decide)
  exact ⟨h1, h3, by rw [h4]; rfl⟩

theorem add_new_schema_entries_of_mem (c : OpenAPISchemas) (n : String) (s ex : Node)
    (hl : assocLookup n c.entries = some ex) :
    (add_new_schema c n s).entries = c.entries := by
  simp only [add_new_schema, hl]
  split <;> rfl

/-- **C6**: `add_new_schema` is idempotent on the catalog: a second call
with the same name and tree leaves the entries (hence size and contents)
exactly as after the first call; and a fresh insertion stores a deep copy
of the supplied tree, which in the value semantics of the embedding is the
tree itself. -/
theorem add_new_schema_idempotent (c : OpenAPISchemas) (n : String) (s : Node) :
    (add_new_schema (add_new_schema c n s) n s).entries = (add_new_schema c n s).entries
    ∧ (assocLookup n c.entries = none →
        assocLookup n (add_new_schema c n s).entries = some s
        ∧ deep_copy s = s) := by
  cases hl : assocLookup n c.entries with
  | none =>
    have hstore : assocLookup n (add_new_schema c n s).entries = some s := by
      simp only [add_new_schema, hl]
      rw [assocLookup_append_right n c.entries _ hl, deep_copy_eq]
      simp [assocLookup]
    exact ⟨add_new_schema_entries_of_mem _ n s s hstore,
      fun _ => ⟨hstore, deep_copy_eq s⟩⟩
  | some ex =>
    have hfirst : (add_new_schema c n s).entries = c.entries :=
      add_new_schema_entries_of_mem c n s ex hl
    have hl2 : assocLookup n (add_new_schema c n s).entries = some ex := by
      rw [hfirst]
      exact hl
    refine ⟨add_new_schema_entries_of_mem _ n s ex hl2, fun hnone => ?_⟩
    exact absurd hnone (by simp)

/-! ### C7: `update_path_data` frame properties -/

theorem assocLookup_map_keyed {β γ : Type} (g : String → β → γ) (p : String) :
    ∀ P : List (String × β),
      assocLookup p (P.map fun a => (a.1, g a.1 a.2)) = (assocLookup p P).map (g p) := by
  intro P
  induction P with
  | nil => rfl
  | cons a P ih =>
    by_cases h : a.1 = p
    · subst h
      simp [assocLookup]
    · have h2 : (a.1 == p) = false := by
        simp [h]
      simp [assocLookup, h2, ih]

theorem assocLookup_eq_none_of_not_contains {α : Type} {k : String}
    {l : List (String × α)} (h : assocContains k l = false) :
    assocLookup k l = none := by
  rw [assocContains_eq_isSome] at h
  cases hl : assocLookup k l
  · rfl
  · rw [hl] at h
    cases h

theorem assocLookup_dictUpdate_of_none (k : String) :
    ∀ (u d : List (String × Node)), assocLookup k u = none →
      assocLookup k (dictUpdate d u) = assocLookup k d := by
  intro u
  induction u with
  | nil => intro d _; rfl
  | cons kv u ih =>
    intro d hk
    by_cases hb : kv.1 = k
    · simp [assocLookup, hb] at hk
    · have h2 : (kv.1 == k) = false := by
        simp [hb]
      simp only [assocLookup, h2, Bool.false_eq_true, if_false] at hk
      show assocLookup k (dictUpdate (assocSet d kv.1 kv.2) u) = assocLookup k d
      rw [ih _ hk, assocLookup_assocSet_other kv.1 k kv.2 (fun hc => hb hc.symm)]

theorem assocLookup_dictUpdate_of_some (k : String) (v : Node) :
    ∀ (u d : List (String × Node)), nodupKeys u = true → assocLookup k u = some v →
      assocLookup k (dictUpdate d u) = some v := by
  intro u
  induction u with
  | nil => intro d _ hk; simp [assocLookup] at hk
  | cons kv u ih =>
    intro d hnd hk
    obtain ⟨k0, v0⟩ := kv
    have hnd' : (!assocContains k0 u && nodupKeys u) = true := hnd
    rw [Bool.and_eq_true, Bool.not_eq_true'] at hnd'
    by_cases hb : k0 = k
    · subst hb
      simp only [assocLookup, beq_self_eq_true, if_true, Option.some.injEq] at hk
      subst hk
      show assocLookup k0 (dictUpdate (assocSet d k0 v0) u) = some v0
      rw [assocLookup_dictUpdate_of_none k0 u _
        (assocLookup_eq_none_of_not_contains hnd'.1)]
      exact assocLookup_assocSet_self k0 v0 d
    · have h2 : (k0 == k) = false := by
        simp [hb]
      simp only [assocLookup, h2, Bool.false_eq_true, if_false] at hk
      exact ih _ hnd'.2 hk

/-- **C7**: `update_path_data` never adds a path or operation key: the
path-key list and each path's operation-key list are unchanged; an
existing `(path, operation)` whose data is supplied gets exactly the
`dict.update` shallow merge (supplied keys overwrite, with last write
winning inside a duplicate-free supplied dict, and all other existing
attributes preserved); an existing pair without supplied data is left
unchanged. -/
theorem update_path_data_frame
    (P D : List (String × List (String × List (String × Node)))) :
    ((update_path_data P D).map Prod.fst = P.map Prod.fst)
    ∧ (∀ p, (assocLookup p (update_path_data P D)).map (fun ops => ops.map Prod.fst)
        = (assocLookup p P).map (fun ops => ops.map Prod.fst))
    ∧ (∀ p ops m props du u,
        assocLookup p P = some ops → assocLookup m ops = some props →
        assocLookup p D = some du → assocLookup m du = some u →
        ∃ ops', assocLookup p (update_path_data P D) = some ops'
          ∧ assocLookup m ops' = some (dictUpdate props u))
    ∧ (∀ p ops m props,
        assocLookup p P = some ops → assocLookup m ops = some props →
        (assocLookup p D = none
          ∨ ∃ du, assocLookup p D = some du ∧ assocLookup m du = none) →
        ∃ ops', assocLookup p (update_path_data P D) = some ops'
          ∧ assocLookup m ops' = some props)
    ∧ (∀ (props u : List (String × Node)) k, nodupKeys u = true →
        (assocLookup k u = none →
          assocLookup k (dictUpdate props u) = assocLookup k props)
        ∧ (∀ v, assocLookup k u = some v →
          assocLookup k (dictUpdate props u) = some v)) := by
  have hP : ∀ p, assocLookup p (update_path_data P D)
      = (assocLookup p P).map (updateOps D p) :=
    fun p => assocLookup_map_keyed (updateOps D) p P
  have hOps : ∀ p m (ops : List (String × List (String × Node))),
      assocLookup m (updateOps D p ops)
        = (assocLookup m ops).map (updateProps D p m) :=
    fun p m ops => assocLookup_map_keyed (updateProps D p) m ops
  refine ⟨?_, ?_, ?_, ?_, ?_⟩
  · rw [update_path_data, List.map_map]
    rfl
  · intro p
    rw [hP p]
    cases assocLookup p P with
    | none => rfl
    | some ops =>
      simp only [Option.map_some']
      rw [updateOps, List.map_map]
      rfl
  · intro p ops m props du u h1 h2 h3 h4
    refine ⟨updateOps D p ops, ?_, ?_⟩
    · rw [hP p, h1]
      rfl
    · rw [hOps p m ops, h2]
      simp only [Option.map_some', Option.some.injEq]
      rw [updateProps, h3]
      show (match assocLookup m du with
        | some d => dictUpdate props d
        | none => props) = dictUpdate props u
      rw [h4]
  · intro p ops m props h1 h2 h3
    refine ⟨updateOps D p ops, ?_, ?_⟩
    · rw [hP p, h1]
      rfl
    · rw [hOps p m ops, h2]
      simp only [Option.map_some', Option.some.injEq]
      rcases h3 with h3 | ⟨du, h3, h3'⟩
      · rw [updateProps, h3]
      · rw [updateProps, h3]
        show (match assocLookup m du with
          | some d => dictUpdate props d
          | none => props) = props
        rw [h3']
  · intro props u k hnd
    exact ⟨fun h => assocLookup_dictUpdate_of_none k u props h,
      fun v h => assocLookup_dictUpdate_of_some k v u props hnd h⟩

theorem update_path_data_frame_witness :
    (∃ ops', assocLookup "/a"
        (update_path_data
          [("/a", [("get", [("summary", Node.scalar (.str "old")),
            ("tags", Node.arr [])])])]
          [("/a", [("get", [("summary", Node.scalar (.str "new"))])]),
           ("/b", [("post", [("x", Node.scalar .null)])])])
      = some ops'
      ∧ assocLookup "get" ops'
        = some (dictUpdate
            [("summary", Node.scalar (.str "old")), ("tags", Node.arr [])]
            [("summary", Node.scalar (.str "new"))]))
    ∧ (update_path_data
          [("/a", [("get", [("summary", Node.scalar (.str "old")),
            ("tags", Node.arr [])])])]
          [("/a", [("get", [("summary", Node.scalar (.str "new"))])]),
           ("/b", [("post", [("x", Node.scalar .null)])])]).map Prod.fst
      = ["/a"] := by
  have h := update_path_data_frame
    [("/a", [("get", [("summary", Node.scalar (.str "old")),
      ("tags", Node.arr [])])])]
    [("/a", [("get", [("summary", Node.scalar (.str "new"))])]),
     ("/b", [("post", [("x", Node.scalar .null)])])]
  refine ⟨h.2.2.1 "/a" _ "get" _ _ _ rfl rfl rfl rfl, ?_⟩
  rw [h.1]
  rfl

/-! ### C8: `deep_get_overwrite` in read mode -/

theorem dgo_nil (d : Node) (value : Option Node) :
    deep_get_overwrite d [] value = .ok (d, d) := rfl

theorem dgo_write1 (kvs : List (String × Node)) (k : String) (value : Node) :
    deep_get_overwrite (.obj kvs) [k] (some value)
      = .ok (Node.obj (assocSet kvs k value), Node.obj (assocSet kvs k value)) := rfl

theorem dgo_read1 (kvs : List (String × Node)) (k : String) :
    deep_get_overwrite (.obj kvs) [k] none
      = (let kvs1 := if assocContains k kvs then kvs else kvs ++ [(k, Node.obj [])]
         let child := (assocLookup k kvs1).getD (Node.obj [])
         match deep_get_overwrite child [] none with
         | .ok (child', ret) => .ok (Node.obj (assocSet kvs1 k child'), ret)
         | .error e => .error e) := rfl

theorem dgo_cons2 (kvs : List (String × Node)) (k k2 : String) (rest : List String)
    (value : Option Node) :
    deep_get_overwrite (.obj kvs) (k :: k2 :: rest) value
      = (let kvs1 := if assocContains k kvs then kvs else kvs ++ [(k, Node.obj [])]
         let child := (assocLookup k kvs1).getD (Node.obj [])
         match deep_get_overwrite child (k2 :: rest) value with
         | .ok (child', ret) => .ok (Node.obj (assocSet kvs1 k child'), ret)
         | .error e => .error e) := rfl

theorem deep_get_overwrite_read_of_resolves :
    ∀ (keys : List String) (d v : Node), resolvePath d keys = some v →
      deep_get_overwrite d keys none = .ok (d, v) := by
  intro keys
  induction keys with
  | nil =>
    intro d v h
    simp only [resolvePath, Option.some.injEq] at h
    rw [dgo_nil, h]
  | cons k rest ih =>
    intro d v h
    match d with
    | .obj kvs =>
      have h' : (match assocLookup k kvs with
          | some w => resolvePath w rest
          | none => none) = some v := h
      cases hl : assocLookup k kvs with
      | none =>
        rw [hl] at h'
        exact absurd h' (by simp)
      | some child =>
        rw [hl] at h'
        have hcon : assocContains k kvs = true := by
          rw [assocContains_eq_isSome, hl]
          rfl
        have hset : assocSet kvs k child = kvs := assocSet_self_of_lookup k child kvs hl
        cases rest with
        | nil =>
          have hv : child = v := by
            simpa [resolvePath] using h'
          rw [dgo_read1]
          simp only [hcon, if_true, hl, Option.getD_some, dgo_nil, hset]
          rw [hv]
        | cons k2 rest2 =>
          rw [dgo_cons2]
          simp only [hcon, if_true, hl, Option.getD_some, ih child v h', hset]
    | .arr xs => exact absurd h (by simp [resolvePath])
    | .scalar s => exact absurd h (by simp [resolvePath])

theorem deep_get_overwrite_write_of_resolves :
    ∀ (keys : List String) (d v0 u : Node), keys ≠ [] → resolvePath d keys = some v0 →
      ∃ d' r, deep_get_overwrite d keys (some u) = .ok (d', r)
        ∧ resolvePath d' keys = some u := by
  intro keys
  induction keys with
  | nil => intro d v0 u hne; exact absurd rfl hne
  | cons k rest ih =>
    intro d v0 u _ h
    match d with
    | .obj kvs =>
      have h' : (match assocLookup k kvs with
          | some w => resolvePath w rest
          | none => none) = some v0 := h
      cases hl : assocLookup k kvs with
      | none =>
        rw [hl] at h'
        exact absurd h' (by simp)
      | some child =>
        rw [hl] at h'
        have hcon : assocContains k kvs = true := by
          rw [assocContains_eq_isSome, hl]
          rfl
        cases rest with
        | nil =>
          refine ⟨Node.obj (assocSet kvs k u), Node.obj (assocSet kvs k u),
            dgo_write1 kvs k u, ?_⟩
          have : assocLookup k (assocSet kvs k u) = some u :=
            assocLookup_assocSet_self k u kvs
          simp [resolvePath, this]
        | cons k2 rest2 =>
          obtain ⟨child', r, hrec, hres⟩ :=
            ih child v0 u (by simp) h'
          refine ⟨Node.obj (assocSet kvs k child'), r, ?_, ?_⟩
          · rw [dgo_cons2]
            simp only [hcon, if_true, hl, Option.getD_some, hrec,
              assocSet_self_of_lookup k child kvs hl]
          · have : assocLookup k (assocSet kvs k child') = some child' :=
              assocLookup_assocSet_self k child' kvs
            have hgoal : (match assocLookup k (assocSet kvs k child') with
                | some w => resolvePath w (k2 :: rest2)
                | none => none) = some u := by
              rw [this]
              exact hres
            exact hgoal
    | .arr xs => exact absurd h (by simp [resolvePath])
    | .scalar s => exact absurd h (by simp [resolvePath])

/-- **C8** counterexample: "read mode" is not read-only — resolving a
missing path inserts empty dicts into the traversed tree: reading key
`"a"` of the empty document turns it into `{"a": {}}` and returns the
fresh empty dict instead of a not-found signal. -/
theorem deep_get_read_mutation_counterexample :
    deep_get_overwrite (.obj []) ["a"] none
      = .ok (.obj [("a", .obj [])], .obj [])
    ∧ Node.obj [("a", .obj [])] ≠ Node.obj [] := by
  refine ⟨rfl, ?_⟩
  intro h
  injection h with h1
  cases h1

/-- **C8** (amended): when every segment of the path resolves,
`deep_get_overwrite` without a value is a read-only traversal returning
the node at the path with the tree unchanged; but when a segment is
missing, it inserts an empty Object at that segment (mutating the tree)
and continues into the fresh dict, ultimately returning an empty Object
rather than a not-found signal. -/
theorem deep_get_overwrite_read_semantics (d v : Node) (keys : List String)
    (h : resolvePath d keys = some v) :
    deep_get_overwrite d keys none = .ok (d, v)
    ∧ (∀ (kvs : List (String × Node)) (k : String), assocContains k kvs = false →
        deep_get_overwrite (.obj kvs) [k] none
          = .ok (.obj (kvs ++ [(k, .obj [])]), .obj [])) := by
  refine ⟨deep_get_overwrite_read_of_resolves keys d v h, ?_⟩
  intro kvs k hnc
  rw [dgo_read1]
  have hl : assocLookup k (kvs ++ [(k, Node.obj [])]) = some (Node.obj []) := by
    rw [assocLookup_append_right k kvs _ (assocLookup_eq_none_of_not_contains hnc)]
    simp [assocLookup]
  simp only [hnc, Bool.false_eq_true, if_false, hl, Option.getD_some, dgo_nil,
    assocSet_self_of_lookup k (Node.obj []) _ hl]

theorem deep_get_overwrite_read_semantics_witness :
    deep_get_overwrite (.obj [("a", .obj [("b", .scalar (.int 7))])]) ["a", "b"] none
      = .ok (.obj [("a", .obj [("b", .scalar (.int 7))])], .scalar (.int 7))
    ∧ (∀ (kvs : List (String × Node)) (k : String), assocContains k kvs = false →
        deep_get_overwrite (.obj kvs) [k] none
          = .ok (.obj (kvs ++ [(k, .obj [])]), .obj [])) :=
  deep_get_overwrite_read_semantics
    (.obj [("a", .obj [("b", .scalar (.int 7))])]) (.scalar (.int 7)) ["a", "b"] rfl

/-! ### C9: the consolidation scans -/

theorem lastMatch_foldl_aux (v : Node) :
    ∀ (l : List (String × Node)) (acc : Option String),
      l.foldl (fun acc e => if deep_equals v e.2 then some e.1 else acc) acc
        = ((l.reverse.find? fun e => deep_equals v e.2).map Prod.fst).or acc := by
  intro l
  induction l with
  | nil => intro acc; rfl
  | cons e l ih =>
    intro acc
    rw [List.foldl_cons, ih, List.reverse_cons, List.find?_append]
    cases he : deep_equals v e.2 with
    | true =>
      simp only [he, if_true, List.find?_cons, List.find?_nil]
      cases (l.reverse.find? fun e => deep_equals v e.2) <;> rfl
    | false =>
      simp only [he, Bool.false_eq_true, if_false, List.find?_cons, List.find?_nil]
      cases (l.reverse.find? fun e => deep_equals v e.2) <;> rfl

theorem lastMatch_eq_reverse_find (catalog : List (String × Node)) (v : Node) :
    lastMatch catalog v
      = (catalog.reverse.find? fun e => deep_equals v e.2).map Prod.fst := by
  rw [lastMatch, lastMatch_foldl_aux]
  cases (catalog.reverse.find? fun e => deep_equals v e.2) <;> rfl

theorem itemsFold_id_of_no_match (it : Node) :
    ∀ catalog : List (String × Node),
      (catalog.all fun e => !deep_equals it e.2) = true → itemsFold catalog it = it := by
  intro catalog
  induction catalog with
  | nil => intro _; rfl
  | cons e l ih =>
    intro h
    rw [List.all_cons, Bool.and_eq_true, Bool.not_eq_true'] at h
    show List.foldl _ (if deep_equals it e.2 then refNode e.1 else it) l = it
    rw [h.1]
    simp only [Bool.false_eq_true, if_false]
    exact ih h.2

/-- **C9** counterexample: catalog `[A ↦ T, B ↦ T, S]` where both `A` and
`B` hold trees structurally equal to `S`'s inline property `p = T`.  The
claim says the FIRST structurally-equal entry (`A`) wins; the code's scan
`continue`s after a match and keeps comparing the original node, so the
LAST match (`B`) wins: `p` ends as a Reference to `B`, although the first
structurally-equal entry in catalog order is `A`. -/
theorem consolidate_first_match_counterexample :
    consolidate_recursive_object_references
        [("A", .obj [("type", .scalar (.str "object"))]),
         ("B", .obj [("type", .scalar (.str "object"))]),
         ("S", .obj [("properties",
            .obj [("p", .obj [("type", .scalar (.str "object"))])])])]
      = [("A", .obj [("type", .scalar (.str "object"))]),
         ("B", .obj [("type", .scalar (.str "object"))]),
         ("S", .obj [("properties", .obj [("p", refNode "B")])])]
    ∧ (([("A", Node.obj [("type", .scalar (.str "object"))]),
         ("B", Node.obj [("type", .scalar (.str "object"))])].find?
          fun e => deep_equals (.obj [("type", .scalar (.str "object"))]) e.2).map
            Prod.fst
        = some "A")
    ∧ ("B" : String) ≠ "A" := by
  refine ⟨rfl, rfl, by decide⟩

/-- **C9** (amended): for a catalog property whose value is an inline
Object (no `items` key, not a Reference), the scan rewrites the property
to a Reference to the LAST catalog entry in iteration order that is
structurally equal to the original inline node (the loop `continue`s after
a match and `prop_values` is never rebound), and recurses into the
property's children exactly when no catalog entry is structurally equal;
an inline `items` slot is rewritten by a running scan starting from the
inline node (so later entries are compared against the already-written
Reference), and is unchanged when no entry ever matches the running
value. -/
theorem consolidate_scan_behavior :
    (∀ (catalog : List (String × Node)) (v : Node),
        lastMatch catalog v
          = (catalog.reverse.find? fun e => deep_equals v e.2).map Prod.fst)
    ∧ (∀ (catalog : List (String × Node)) (pname : String) (pv : Node) (nm : String),
        pyHasKey "items" pv = false → pyHasKey "$ref" pv = false →
        lastMatch catalog pv = some nm →
        processProps catalog [(pname, pv)] = [(pname, refNode nm)])
    ∧ (∀ (catalog : List (String × Node)) (pname : String) (pv : Node),
        pyHasKey "items" pv = false → pyHasKey "$ref" pv = false →
        lastMatch catalog pv = none →
        processProps catalog [(pname, pv)] = [(pname, process_schema catalog pv)])
    ∧ (∀ (catalog : List (String × Node)) (it : Node),
        (catalog.all fun e => !deep_equals it e.2) = true →
        itemsFold catalog it = it) := by
  refine ⟨lastMatch_eq_reverse_find, ?_, ?_, fun catalog it h =>
    itemsFold_id_of_no_match it catalog h⟩
  · intro catalog pname pv nm h1 h2 h3
    simp only [processProps, h1, h2, Bool.false_eq_true, if_false, h3]
  · intro catalog pname pv h1 h2 h3
    simp only [processProps, h1, h2, Bool.false_eq_true, if_false, h3]

theorem consolidate_scan_behavior_witness :
    processProps
        [("A", .obj [("type", .scalar (.str "object"))]),
         ("B", .obj [("type", .scalar (.str "object"))])]
        [("p", .obj [("type", .scalar (.str "object"))])]
      = [("p", refNode "B")] := by
  have h := consolidate_scan_behavior
  exact h.2.1
    [("A", .obj [("type", .scalar (.str "object"))]),
     ("B", .obj [("type", .scalar (.str "object"))])]
    "p" (.obj [("type", .scalar (.str "object"))]) "B" rfl rfl rfl

/-! ### C10: `extract_schemas` rewrites even on conflict -/

/-- **C10**: when a selector's path resolves inside an existing root
schema but the catalog already holds a structurally different tree under
the target canonical name `ref`, the conflict is reported, the original
`ref` entry wins — and the location inside the root schema is still
rewritten to a Reference to `ref`, so the document location ends up
referencing a schema that is not structurally equal to the node extracted
from it. -/
theorem extract_rewrites_despite_conflict
    (c : OpenAPISchemas) (target ref : String) (path : List String)
    (schema v w : Node)
    (hne : ref ≠ target)
    (ht : assocLookup target c.entries = some schema)
    (hres : resolvePath schema path = some v)
    (hpne : path ≠ [])
    (hw : assocLookup ref c.entries = some w)
    (hconf : deep_equals w v = false) :
    ∃ (c' : OpenAPISchemas) (schema2 : Node),
      extract_schema_for c target path ref = .ok c'
      ∧ assocLookup ref c'.entries = some w
      ∧ c'.conflicts = c.conflicts ++ [ref]
      ∧ assocLookup target c'.entries = some schema2
      ∧ resolvePath schema2 path = some (refNode ref)
      ∧ deep_equals w v = false := by
  obtain ⟨schema2, r, hwr, hres2⟩ :=
    deep_get_overwrite_write_of_resolves path schema v (refNode ref) hpne hres
  have hread := deep_get_overwrite_read_of_resolves path schema v hres
  have hsetid : assocSet c.entries target schema = c.entries :=
    assocSet_self_of_lookup target schema c.entries ht
  have hc1 : ({ c with entries := assocSet c.entries target schema } : OpenAPISchemas)
      = c := by
    rw [hsetid]
  have hc2 : add_new_schema c ref v
      = { c with conflicts := c.conflicts ++ [ref] } := by
    simp only [add_new_schema, hw, hconf, Bool.false_eq_true, if_false]
  refine ⟨OpenAPISchemas.mk (assocSet c.entries target schema2) (c.conflicts ++ [ref]),
    schema2, ?_, ?_, rfl, ?_, hres2, hconf⟩
  · simp only [extract_schema_for, ht, hread, hsetid, hc1, hc2, hwr]
  · rw [assocLookup_assocSet_other target ref schema2 hne c.entries]
    exact hw
  · exact assocLookup_assocSet_self target schema2 c.entries

theorem extract_rewrites_despite_conflict_witness :
    ∃ (c' : OpenAPISchemas) (schema2 : Node),
      extract_schema_for
          (OpenAPISchemas.mk
            [("Root", .obj [("data", .obj [("x", .scalar (.str "string"))])]),
             ("DTO", .obj [("x", .scalar (.str "number"))])]
            [])
          "Root" ["data"] "DTO"
        = .ok c'
      ∧ assocLookup "DTO" c'.entries = some (.obj [("x", .scalar (.str "number"))])
      ∧ c'.conflicts = [] ++ ["DTO"]
      ∧ assocLookup "Root" c'.entries = some schema2
      ∧ resolvePath schema2 ["data"] = some (refNode "DTO")
      ∧ deep_equals (.obj [("x", .scalar (.str "number"))])
          (.obj [("x", .scalar (.str "string"))]) = false :=
  extract_rewrites_despite_conflict
    (OpenAPISchemas.mk
      [("Root", .obj [("data", .obj [("x", .scalar (.str "string"))])]),
       ("DTO", .obj [("x", .scalar (.str "number"))])]
      [])
    "Root" "DTO" ["data"]
    (.obj [("data", .obj [("x", .scalar (.str "string"))])])
    (.obj [("x", .scalar (.str "string"))])
    (.obj [("x", .scalar (.str "number"))])
    (by decide) rfl rfl (by decide) rfl (by decide)

theorem add_new_schema_idempotent_witness :
    (add_new_schema
        (add_new_schema { entries := [], conflicts := [] } "Foo"
          (Node.obj [("type", .scalar (.str "object"))]))
        "Foo" (Node.obj [("type", .scalar (.str "object"))])).entries
      = (add_new_schema { entries := [], conflicts := [] } "Foo"
          (Node.obj [("type", .scalar (.str "object"))])).entries
    ∧ assocLookup "Foo"
        (add_new_schema { entries := [], conflicts := [] } "Foo"
          (Node.obj [("type", .scalar (.str "object"))])).entries
      = some (Node.obj [("type", .scalar (.str "object"))])
    ∧ deep_copy (Node.obj [("type", .scalar (.str "object"))])
      = Node.obj [("type", .scalar (.str "object"))] := by
  have h := add_new_schema_idempotent { entries := [], conflicts := [] } "Foo"
    (Node.obj [("type", .scalar (.str "object"))])
  obtain ⟨h1, h2⟩ := h
  obtain ⟨h3, h4⟩ := h2 rfl
  exact ⟨h1, h3, h4⟩

end UexCorp
